import Mathlib

/-!
Shallow embedding of the `descriptor` crate (pretty-printing of Rust structs
as indented object views and aligned tables) together with proofs about its
layout context, container adapters, derive-generated trait methods and the
table rendering algorithm.

Rust `usize` values are modelled as `Nat`.  Writers (`io::Write` sinks) are
modelled by returning the written text as a `String`; a write that panics
(usize underflow) is modelled by `Option.none`.  Writes to the in-memory
buffers used by `*_to_string` never fail, so `io::Result` errors do not
otherwise arise.

Lean's own `String` functions such as `String.toUpper` or `String.splitOn`
do not reduce inside the kernel, so the character-level operations are
defined here directly on `List Char`.
-/

namespace Descriptor

/-- `n` spaces, the text produced by Rust's empty-string padding
`format!("{:<n$}", "")` (and `{:>n$}`, identical for an empty string). -/
def spaces (n : Nat) : String :=
  String.mk (List.replicate n ' ')

/-- Concatenate a list of strings with a separator between consecutive
elements; models `Vec::join` / `format!` chains. -/
def joinSep (sep : String) : List String → String
  | [] => ""
  | [x] => x
  | x :: xs => x ++ sep ++ joinSep sep xs

/-- Concatenation of a list of strings (sequential writes to one sink). -/
def strConcat : List String → String
  | [] => ""
  | s :: rest => s ++ strConcat rest

/-- Byte-lexicographic order on strings as used by Rust's `String: Ord`
(`keys.sort()`), expressed on characters: UTF-8 byte order coincides with
code-point order, so comparing `Char.toNat` code points is faithful. -/
def charsLe : List Char → List Char → Bool
  | [], _ => true
  | _ :: _, [] => false
  | a :: as, b :: bs =>
    if a.toNat < b.toNat then true
    else if b.toNat < a.toNat then false
    else charsLe as bs

/-- `strLe a b` holds when `a` sorts before (or equal to) `b` in Rust's
`String` ordering. -/
def strLe (a b : String) : Bool :=
  charsLe a.data b.data

/-- Model of `keys.sort()` on `Vec<&String>`: an ascending sort by `strLe`.
`List.insertionSort` is used as the executable sorting function. -/
def sortKeys (l : List String) : List String :=
  l.insertionSort (fun a b => strLe a b = true)

/-- Split a character list at every occurrence of `sep` (the separator is
dropped; `n` separators yield `n + 1` pieces, as `str::split`). -/
def splitChars (sep : Char) : List Char → List (List Char)
  | [] => [[]]
  | c :: cs =>
    if c = sep then [] :: splitChars sep cs
    else
      match splitChars sep cs with
      | [] => [[c]]
      | w :: ws => (c :: w) :: ws

/-- Split a string at every occurrence of the character `sep`. -/
def splitString (sep : Char) (s : String) : List String :=
  (splitChars sep s.data).map String.mk

/-- Model of `str::split_once(".")` as used by `get_keys` in `src/lib.rs`:
no dot yields `(field_name, "")`, otherwise the pair around the first dot. -/
def get_keys (field_name : String) : String × String :=
  match splitString '.' field_name with
  | [] => (field_name, "")
  | [_] => (field_name, "")
  | x :: rest => (x, joinSep "." rest)

/-- Modelled from the spec: the external `convert_case` crate's
`to_case(Case::UpperSnake)` conversion, restricted to the snake_case /
dotted-lowercase strings that occur as header paths (field identifiers
joined by dots).  On those inputs the conversion splits on underscores,
uppercases every word and rejoins with underscores, leaving dots inside
words untouched; this matches the repository's own doctests and tests
(`ADDRESS.STREET`, `LONG_COLUMN`, `INNER_FOO.STRING`). -/
def toUpperSnake (s : String) : String :=
  joinSep "_" ((splitString '_' s).map (fun w => String.mk (w.data.map Char.toUpper)))

/-- Modelled from the spec: the external `strip_ansi_escapes` crate used by
`Describer::compute_string_size`, "discarding terminal escape/styling byte
sequences".  State machine: `0` = plain text, `1` = just saw ESC,
`2` = inside a CSI sequence (dropped up to and including its final byte in
`0x40`-`0x7E`). -/
def stripAnsiAux : List Char → Nat → List Char
  | [], _ => []
  | c :: rest, 0 =>
    if c.toNat = 27 then stripAnsiAux rest 1
    else c :: stripAnsiAux rest 0
  | c :: rest, 1 =>
    if c = '[' then stripAnsiAux rest 2
    else stripAnsiAux rest 0
  | c :: rest, _ + 2 =>
    if 0x40 ≤ c.toNat ∧ c.toNat ≤ 0x7e then stripAnsiAux rest 0
    else stripAnsiAux rest 2

/-- Strip ANSI escape sequences from a string. -/
def stripAnsi (s : String) : String :=
  String.mk (stripAnsiAux s.data 0)

/-- `Describer::compute_string_size`: the visible length of a cell, the
length of the string after stripping ANSI escape sequences. -/
def compute_string_size (s : String) : Nat :=
  (stripAnsi s).length

/-- The layout `Context` of `src/lib.rs`; field defaults mirror
`#[derive(Default)]` (`Context::default()`). -/
structure Context where
  offset : Nat := 0
  pad : Nat := 0
  upper_pad : Nat := 0
  is_array : Bool := false
  title_size : Nat := 0
deriving Repr, DecidableEq

/-- `Context::default()`. -/
def defaultContext : Context := {}

/-- `Context::pad` (named `padFloor` here because `pad` is taken by the
structure field): reset line-local state and raise the pending width floor. -/
def Context.padFloor (c : Context) (upper_pad : Nat) : Context :=
  { offset := c.offset
    upper_pad := Nat.max c.upper_pad upper_pad
    pad := 0
    title_size := 0
    is_array := false }

/-- `Context::indent`: descend one nesting level. -/
def Context.indent (c : Context) (pad : Nat) (title_size : Nat) : Context :=
  { offset := c.offset + 2
    pad := Nat.max pad c.upper_pad
    upper_pad := 0
    title_size := title_size
    is_array := false }

/-- `Context::array`: mark array mode without changing offset. -/
def Context.array (c : Context) : Context :=
  { offset := c.offset
    pad := c.pad
    title_size := 0
    upper_pad := 0
    is_array := true }

/-- `Context::indent_and_table`: descend and switch to array/table mode. -/
def Context.indent_and_table (c : Context) : Context :=
  { offset := c.offset + 2
    pad := 0
    upper_pad := 0
    title_size := 0
    is_array := true }

/-- `Context::write_title`.  The text written is returned; in the
`first_field && is_array` branch the Rust code computes the `usize`
difference `self.offset - 2`, which panics on underflow — modelled as
`none`. -/
def Context.write_title (c : Context) (field : String) (first_field : Bool) :
    Option String :=
  if first_field && c.is_array then
    if 2 ≤ c.offset then
      some ("\n" ++ spaces (c.offset - 2) ++ "- " ++ field ++ ":")
    else none
  else some ("\n" ++ spaces c.offset ++ field ++ ":")

/-- `Context::write_value`.  The `usize` differences `self.offset - 2`
(array mode) and `self.pad - self.title_size` (non-array mode) panic on
underflow — modelled as `none`. -/
def Context.write_value (c : Context) (field : String) : Option String :=
  if c.is_array then
    if 2 ≤ c.offset then
      some ("\n" ++ spaces (c.offset - 2) ++ "- " ++ field)
    else none
  else
    if c.title_size ≤ c.pad then
      some (spaces (c.pad - c.title_size) ++ field)
    else none

/-- The `Describe` trait of `src/lib.rs`, reified as a record of its
methods for one concrete `Self` type `α`.  Field defaults mirror the
trait's provided default bodies: `headers()` is empty, `default_headers()`
is `Self::headers()`, `header_name` is `None`, `struct_pad()` is `0`, and
`describe` writes `self.to_field("")` as one value. -/
structure Describe (α : Type) where
  to_field : α → String → String
  headers : List String := []
  default_headers : List String := headers
  header_name : String → Option String := fun _ => none
  struct_pad : Nat := 0
  describe : α → Context → Option String :=
    fun a ctx => ctx.write_value (to_field a "")

/-- The `impl Describe for String` generated by `describe_macro_to_string!`:
`to_field` ignores the path and returns the string itself; everything else
is the trait default. -/
def stringImpl : Describe String :=
  { to_field := fun s _ => s }

/-- `impl Describe for Option<T>`: `to_field`. -/
def optionToField (d : Describe α) : Option α → String → String
  | none, _ => "~"
  | some v, field_name => d.to_field v field_name

/-- `impl Describe for Option<T>`: `describe`. -/
def optionDescribe (d : Describe α) : Option α → Context → Option String
  | none, ctx => ctx.write_value "~"
  | some v, ctx => d.describe v ctx

/-- `impl Describe for Option<T>`: overrides `to_field`, `headers`,
`header_name` and `describe`; `default_headers` and `struct_pad` stay at
the trait defaults. -/
def optionImpl (d : Describe α) : Describe (Option α) :=
  { to_field := optionToField d
    headers := d.headers
    header_name := d.header_name
    describe := optionDescribe d }

/-- `impl Describe for Vec<T>`: `to_field` resolves the path against every
element and joins the results with a comma. -/
def vecToField (d : Describe α) (xs : List α) (field : String) : String :=
  joinSep "," (xs.map (fun x => d.to_field x field))

/-- `impl Describe for Vec<T>`: `describe` writes the tombstone for an
empty vector, else each element under `ctx.array()`. -/
def vecDescribe (d : Describe α) (xs : List α) (ctx : Context) : Option String :=
  if xs.isEmpty then ctx.write_value "~"
  else xs.foldlM (fun acc x => (d.describe x ctx.array).map (fun s => acc ++ s)) ""

/-- `impl Describe for Vec<T>`: overrides `to_field` and `describe` only. -/
def vecImpl (d : Describe α) : Describe (List α) :=
  { to_field := vecToField d
    describe := vecDescribe d }

/-- `impl Describe for HashMap<String, V>`: `describe`.  The map is
modelled as an association list (its entry set); `self.keys()` is the list
of first components, `self[k]` is `find?` lookup, `keys.sort()` is
`sortKeys`.  `pad` is max key length + 1 (`unwrap_or_default` yields the
fold base `0`). -/
def hashMapDescribe (d : Describe α) (m : List (String × α)) (ctx : Context) :
    Option String :=
  if m.isEmpty then ctx.write_value "~"
  else
    let pad := (m.map (fun kv => kv.1.length)).foldl Nat.max 0 + 1
    let keys := sortKeys (m.map Prod.fst)
    keys.foldlM
      (fun acc k =>
        (ctx.write_title k false).bind fun title =>
        ((m.find? (fun kv => kv.1 == k)).map Prod.snd).bind fun v =>
        (d.describe v (ctx.indent pad k.length)).map fun body =>
        acc ++ title ++ body)
      ""

/-! ### The table renderer (`Describer` in `src/lib.rs`)

`describe_list_internal` is split into named pieces so that the theorems
can speak about its intermediate values (effective headers, rows, display
labels, column widths) exactly as the claims do; `describe_list_internal`
itself glues the pieces together in source order. -/

/-- Effective header list: the caller's `headers` if non-empty, else
`T::default_headers()`. -/
def effectiveHeaders (d : Describe α) (headers : List String) : List String :=
  if headers.isEmpty then d.default_headers else headers

/-- Row computation: one row per item, one cell per header path, resolved
via `row.to_field(path)`. -/
def tableRows (d : Describe α) (data : List α) (headers : List String) :
    List (List String) :=
  data.map (fun row => headers.map (fun x => d.to_field row x))

/-- Display label of one header path: `T::header_name(header)` if `Some`,
else the upper-snake-case conversion of the header path. -/
def headerLabel (d : Describe α) (header : String) : String :=
  match d.header_name header with
  | none => toUpperSnake header
  | some h => h

/-- Display labels of all header paths (`header_names` in the source). -/
def headerNames (d : Describe α) (headers : List String) : List String :=
  headers.map (headerLabel d)

/-- One pass of the column-width loop: for each cell of `row`,
`col_widths[idx] = col_widths[idx].max(compute_string_size(cell))`.
Cells beyond `ws.length` would panic in Rust (index out of bounds) and do
not occur: every row has exactly one cell per header. -/
def updateWidths (ws : List Nat) (row : List String) : List Nat :=
  ws.zipWith (fun w c => Nat.max w (compute_string_size c)) row ++ ws.drop row.length

/-- Column widths: start from the display-label lengths, then fold the
width loop over all rows. -/
def computeColWidths (header_names : List String) (rows : List (List String)) :
    List Nat :=
  rows.foldl updateWidths (header_names.map String.length)

/-- One emitted row of cells (used for the header row with `size` the raw
label length, and for data rows with `size = compute_string_size`): each
cell is preceded by a single separating space (except the first) and by
`offset` spaces, and followed by padding up to its column width — except
the last cell, which gets no trailing padding. -/
def renderCellsAux (offset : Nat) (size : String → Nat) :
    List (String × Nat) → Bool → String
  | [], _ => ""
  | [(cell, _)], first =>
    (if first then "" else " ") ++ spaces offset ++ cell
  | (cell, w) :: rest, first =>
    (if first then "" else " ") ++ spaces offset ++ cell ++
      spaces (w - size cell) ++ renderCellsAux offset size rest false

/-- `Describer::describe_list_internal`: compute effective headers, rows,
display labels and column widths, then emit the header row, the literal
`"Empty list"` marker when there are no rows (written by `writeln!`, hence
with a trailing — but no leading — newline), and every data row preceded
by a newline. -/
def describe_list_internal (d : Describe α) (data : List α)
    (headers0 : List String) (ctx : Context) : String :=
  let headers := effectiveHeaders d headers0
  let rows := tableRows d data headers
  let header_names := headerNames d headers
  let col_widths := computeColWidths header_names rows
  let headerPart := renderCellsAux ctx.offset String.length
    (header_names.zip col_widths) true
  let emptyPart := if rows.isEmpty then "Empty list\n" else ""
  let rowsPart := strConcat (rows.map (fun row =>
    "\n" ++ renderCellsAux ctx.offset compute_string_size (row.zip col_widths) true))
  headerPart ++ emptyPart ++ rowsPart

/-- `Describer::describe_list_with_header`: the internal render plus the
final `writeln!`. -/
def describe_list_with_header (d : Describe α) (data : List α)
    (headers : List String) (ctx : Context) : String :=
  describe_list_internal d data headers ctx ++ "\n"

/-- `Describer::describe_list`: no caller-supplied headers. -/
def describe_list (d : Describe α) (data : List α) (ctx : Context) : String :=
  describe_list_with_header d data [] ctx

/-- `table_describe_to_string`: render with `Context::default()` (writes to
a `Vec<u8>` buffer, which never fails). -/
def table_describe_to_string (d : Describe α) (data : List α) : String :=
  describe_list d data defaultContext

/-! ### The derive macro's generated trait methods
(`src/descriptor_derive/src/lib.rs`)

The macro generates one method body per struct from its list of fields and
attributes.  A field is modelled by what the generated code consumes from
it: its name and what `headers()` / `default_headers()` of its described
type (the field type, or the `into =` target) return. -/

/-- One struct field as seen by `headers_for_struct`: the field name, the
field's described type's `headers()` and its `default_headers()`. -/
structure FieldMeta where
  field_name : String
  typHeaders : List String
  typDefaultHeaders : List String
deriving Repr, DecidableEq

/-- `headers_for_struct`: for each field take the described type's
`default_headers()`, qualify each entry as `"<field>.<entry>"`; if that
list is empty push the bare field name instead.  When an
`extra_fields = S` struct attribute is present, `S::default_headers()` is
appended unqualified. -/
def headers_for_struct (fields : List FieldMeta)
    (extraDefaultHeaders : Option (List String)) : List String :=
  let base := fields.foldl
    (fun headers f =>
      let fs := f.typDefaultHeaders.map (fun x => f.field_name ++ "." ++ x)
      if fs.isEmpty then headers ++ [f.field_name] else headers ++ fs)
    []
  match extraDefaultHeaders with
  | some hs => base ++ hs
  | none => base

/-- The claim's reading of `headers()` (for comparison with
`headers_for_struct`): the concatenation, in declared field order, of each
field's own `headers()` — not `default_headers()` — qualified with the
field name, a field with an empty header list contributing its bare name. -/
def headersClaim (fields : List FieldMeta) : List String :=
  fields.foldl
    (fun headers f =>
      let fs := f.typHeaders.map (fun x => f.field_name ++ "." ++ x)
      if fs.isEmpty then headers ++ [f.field_name] else headers ++ fs)
    []

/-- `default_headers_for_struct`: an explicit `default_headers = [..]`
struct attribute wins; otherwise `Self::headers()` filtered by the
`skip_header` field names. -/
def default_headers_for_struct (explicitHeaders : Option (List String))
    (skips : List String) (selfHeaders : List String) : List String :=
  match explicitHeaders with
  | some hs => hs
  | none => selfHeaders.filter (fun x => !(skips.contains x))

/-- One struct as seen by `to_field_for_struct`: for each field, the
resolver the generated `match` arm calls on the remainder path (the
`field_getter` chain ending in `.to_field(_child)`), plus the optional
`extra_fields` delegate (called on the *full* path) and the optional
struct-level `map =` post-transform. -/
structure ToFieldMeta where
  fields : List (String × (String → String))
  extraToField : Option (String → String)
  structMap : Option (String → String)

/-- `to_field_for_struct`: split the path once, dispatch the head to the
matching field arm; an unmatched head falls back to the `extra_fields`
delegate when declared, else to the literal `"field not found"`; a
struct-level `map` is applied to whatever value results. -/
def to_field_for_struct (t : ToFieldMeta) (field_name : String) : String :=
  let fc := get_keys field_name
  let value :=
    match t.fields.find? (fun p => p.1 == fc.1) with
    | some p => p.2 fc.2
    | none =>
      match t.extraToField with
      | some extra => extra field_name
      | none => "field not found"
  match t.structMap with
  | some m => m value
  | none => value

/-! ### Concrete fixtures

`InnerA { state, value }` from `tests/table_test.rs`, wired through the
derive model: its generated `to_field`, `headers` and `default_headers`.
(The generated object-view `describe` is not needed by any claim and is
left at the trait default.) -/

/-- Field metadata of `InnerA`: two leaf `String` fields. -/
def innerAFields : List FieldMeta :=
  [⟨"state", [], []⟩, ⟨"value", [], []⟩]

/-- Generated `to_field` dispatch table of one `InnerA` value. -/
def innerAToField (a : String × String) : ToFieldMeta :=
  ⟨[("state", fun _ => a.1), ("value", fun _ => a.2)], none, none⟩

/-- The derived `Describe` implementation of `InnerA`. -/
def innerAImpl : Describe (String × String) :=
  { to_field := fun a field_name => to_field_for_struct (innerAToField a) field_name
    headers := headers_for_struct innerAFields none
    default_headers := default_headers_for_struct none []
      (headers_for_struct innerAFields none) }

/-- A fixture whose header list contains a dotted path with no rename, as
in `tests/table_test.rs` (`inner_foo.string`) and the crate doctest
(`address.street`). -/
def addrImpl : Describe String :=
  { to_field := fun s _ => s
    headers := ["address.street"] }

/-- The claim's words for C3: the path's final segment, the part after the
last dot. -/
def finalSegment (s : String) : String :=
  (splitString '.' s).getLastD ""

/-! ### Helper lemmas -/

theorem compute_string_size_empty : compute_string_size "" = 0 := rfl

theorem charToNat_inj {a b : Char} (h : a.toNat = b.toNat) : a = b := by
  have h2 := congrArg Char.ofNat h
  rwa [Char.ofNat_toNat, Char.ofNat_toNat] at h2

theorem charsLe_total : ∀ (a b : List Char), charsLe a b = true ∨ charsLe b a = true
  | [], _ => Or.inl rfl
  | _ :: _, [] => Or.inr rfl
  | a :: as, b :: bs => by
    by_cases h1 : a.toNat < b.toNat
    · left; simp [charsLe, h1]
    · by_cases h2 : b.toNat < a.toNat
      · right; simp [charsLe, h2]
      · cases charsLe_total as bs with
        | inl h => left; simp [charsLe, h1, h2, h]
        | inr h => right; simp [charsLe, h1, h2, h]

theorem charsLe_trans : ∀ (a b c : List Char),
    charsLe a b = true → charsLe b c = true → charsLe a c = true
  | [], _, _, _, _ => rfl
  | _ :: _, [], _, h1, _ => by simp [charsLe] at h1
  | _ :: _, _ :: _, [], _, h2 => by simp [charsLe] at h2
  | a :: as, b :: bs, c :: cs, h1, h2 => by
    simp only [charsLe] at h1 h2 ⊢
    by_cases hab1 : a.toNat < b.toNat
    · by_cases hbc1 : b.toNat < c.toNat
      · simp [show a.toNat < c.toNat by omega]
      · by_cases hbc2 : c.toNat < b.toNat
        · rw [if_neg hbc1, if_pos hbc2] at h2; exact absurd h2 (by simp)
        · simp [show a.toNat < c.toNat by omega]
    · by_cases hab2 : b.toNat < a.toNat
      · rw [if_neg hab1, if_pos hab2] at h1; exact absurd h1 (by simp)
      · rw [if_neg hab1, if_neg hab2] at h1
        by_cases hbc1 : b.toNat < c.toNat
        · simp [show a.toNat < c.toNat by omega]
        · by_cases hbc2 : c.toNat < b.toNat
          · rw [if_neg hbc1, if_pos hbc2] at h2; exact absurd h2 (by simp)
          · rw [if_neg hbc1, if_neg hbc2] at h2
            have hrec := charsLe_trans as bs cs h1 h2
            simp [show ¬ a.toNat < c.toNat by omega,
              show ¬ c.toNat < a.toNat by omega, hrec]

theorem charsLe_antisymm : ∀ (a b : List Char),
    charsLe a b = true → charsLe b a = true → a = b
  | [], [], _, _ => rfl
  | [], _ :: _, _, h2 => by simp [charsLe] at h2
  | _ :: _, [], h1, _ => by simp [charsLe] at h1
  | a :: as, b :: bs, h1, h2 => by
    simp only [charsLe] at h1 h2
    by_cases hab : a.toNat < b.toNat
    · rw [if_neg (show ¬ b.toNat < a.toNat by omega), if_pos hab] at h2
      exact absurd h2 (by simp)
    · by_cases hba : b.toNat < a.toNat
      · rw [if_neg hab, if_pos hba] at h1
        exact absurd h1 (by simp)
      · rw [if_neg hab, if_neg hba] at h1
        rw [if_neg hba, if_neg hab] at h2
        rw [charToNat_inj (show a.toNat = b.toNat by omega),
          charsLe_antisymm as bs h1 h2]

theorem strLe_total (a b : String) : strLe a b = true ∨ strLe b a = true :=
  charsLe_total a.data b.data

theorem strLe_trans {a b c : String} (h1 : strLe a b = true)
    (h2 : strLe b c = true) : strLe a c = true :=
  charsLe_trans a.data b.data c.data h1 h2

theorem strLe_antisymm {a b : String} (h1 : strLe a b = true)
    (h2 : strLe b a = true) : a = b := by
  have h := charsLe_antisymm a.data b.data h1 h2
  cases a; cases b
  exact congrArg String.mk h

instance : IsTotal String (fun a b => strLe a b = true) := ⟨strLe_total⟩

instance : IsTrans String (fun a b => strLe a b = true) :=
  ⟨fun _ _ _ => strLe_trans⟩

instance : IsAntisymm String (fun a b => strLe a b = true) :=
  ⟨fun _ _ => strLe_antisymm⟩

theorem sortKeys_perm (l : List String) : (sortKeys l).Perm l :=
  List.perm_insertionSort _ l

theorem sortKeys_sorted (l : List String) :
    List.Sorted (fun a b => strLe a b = true) (sortKeys l) :=
  List.sorted_insertionSort _ l

theorem empty_append_str (s : String) : "" ++ s = s := by
  simp

theorem foldlM_describe_eq_mapM (g : α → Option String) :
    ∀ (xs : List α) (acc : String),
      xs.foldlM (fun acc x => (g x).map (fun s => acc ++ s)) acc
        = (xs.mapM g).map (fun parts => acc ++ strConcat parts)
  | [], acc => by
    rw [List.mapM_nil]
    simp [strConcat]
  | x :: xs, acc => by
    rw [List.foldlM_cons, List.mapM_cons]
    cases hgx : g x with
    | none => simp
    | some s =>
      refine Eq.trans (foldlM_describe_eq_mapM g xs (acc ++ s)) ?_
      cases xs.mapM g <;> simp [strConcat, String.append_assoc]

theorem getD_map_fn {β : Type} (f : String → β) (dflt : β) :
    ∀ (l : List String) (i : Nat), i < l.length →
      (l.map f).getD i dflt = f (l.getD i "")
  | [], _, h => absurd h (by simp)
  | _ :: _, 0, _ => rfl
  | _ :: xs, n + 1, h => by
    simp only [List.map_cons, List.getD_cons_succ]
    exact getD_map_fn f dflt xs n (by simpa using h)

theorem updateWidths_length (ws : List Nat) (row : List String)
    (h : row.length = ws.length) : (updateWidths ws row).length = ws.length := by
  simp [updateWidths, h]

theorem updateWidths_getD : ∀ (ws : List Nat) (row : List String),
    row.length = ws.length → ∀ (i : Nat),
      (updateWidths ws row).getD i 0
        = Nat.max (ws.getD i 0) (compute_string_size (row.getD i ""))
  | [], [], _, i => by simp [updateWidths, compute_string_size_empty]
  | [], _ :: _, h, _ => by simp at h
  | _ :: _, [], h, _ => by simp at h
  | w :: ws, c :: cs, h, i => by
    have h2 : cs.length = ws.length := by simpa using h
    have hcons : updateWidths (w :: ws) (c :: cs)
        = Nat.max w (compute_string_size c) :: updateWidths ws cs := by
      simp [updateWidths]
    rw [hcons]
    cases i with
    | zero => rfl
    | succ n =>
      simp only [List.getD_cons_succ]
      exact updateWidths_getD ws cs h2 n

theorem foldl_updateWidths_getD :
    ∀ (rows : List (List String)) (ws : List Nat) (i : Nat),
      (∀ r ∈ rows, r.length = ws.length) →
      (rows.foldl updateWidths ws).getD i 0
        = Nat.max (ws.getD i 0)
            ((rows.map (fun r => compute_string_size (r.getD i ""))).foldr Nat.max 0)
  | [], ws, i, _ => by simp
  | r :: rows, ws, i, h => by
    have hr : r.length = ws.length := h r (by simp)
    have hrest : ∀ r2 ∈ rows, r2.length = (updateWidths ws r).length := by
      intro r2 h2
      rw [updateWidths_length ws r hr]
      exact h r2 (by simp [h2])
    simp only [List.foldl_cons, List.map_cons, List.foldr_cons]
    rw [foldl_updateWidths_getD rows (updateWidths ws r) i hrest,
      updateWidths_getD ws r hr i]
    exact Nat.max_assoc _ _ _

theorem foldl_append_eq_flatten {β : Type} (g : β → List String) :
    ∀ (fs : List β) (acc : List String),
      fs.foldl (fun headers f => headers ++ g f) acc = acc ++ (fs.map g).flatten
  | [], acc => by simp
  | f :: fs, acc => by
    simp only [List.foldl_cons, List.map_cons, List.flatten_cons]
    rw [foldl_append_eq_flatten g fs (acc ++ g f)]
    simp

/-- Regression check of the embedding: the full table pipeline reproduces
the expected output of `test_table_descriptor` in `tests/table_test.rs`
byte for byte. -/
theorem innerA_table_matches_test :
    table_describe_to_string innerAImpl [("f", "bar"), ("foo", "b")]
      = "STATE VALUE\nf     bar\nfoo   b\n" := by decide

/-- Regression check: styling escape sequences do not count towards the
visible width. -/
theorem compute_string_size_strips_styling :
    compute_string_size "\x1b[31mred\x1b[0m" = 3 := by decide

/-! ### Claim theorems -/

/-- C4 (amended): for a derived composite that declares neither an
`extra_fields` struct nor a struct-level `map`, `to_field` on any path
whose head segment matches no declared field returns the literal
`"field not found"`. -/
theorem to_field_unmatched_not_found (t : ToFieldMeta) (field_name : String)
    (hextra : t.extraToField = none) (hmap : t.structMap = none)
    (hmiss : ∀ p ∈ t.fields, p.1 ≠ (get_keys field_name).1) :
    to_field_for_struct t field_name = "field not found" := by
  have hfind : t.fields.find? (fun p => p.1 == (get_keys field_name).1) = none := by
    rw [List.find?_eq_none]
    intro p hp
    simpa using hmiss p hp
  simp [to_field_for_struct, hfind, hextra, hmap]

theorem to_field_unmatched_not_found_witness :
    to_field_for_struct ⟨[("a", fun _ => "va")], none, none⟩ "zzz"
      = "field not found" := by
  refine to_field_unmatched_not_found _ _ rfl rfl ?_
  intro p hp
  rw [List.mem_singleton] at hp
  subst hp
  decide

/-- C4 counterexample: the `extra_fields` fixture of
`tests/describe_test.rs` / `tests/table_test.rs` — `Foo { first_field,
number }` with `extra_fields = ExtraFieldsStruct { anything }`.  The path
`"anything"` matches no declared field of `Foo`, yet `to_field` returns
the extra struct's value, not `"field not found"`. -/
theorem to_field_unmatched_delegates_to_extra :
    (get_keys "anything").1 ∉
      (([("first_field", fun _ => "test"), ("number", fun _ => "200")] :
        List (String × (String → String))).map Prod.fst) ∧
    to_field_for_struct
      ⟨[("first_field", fun _ => "test"), ("number", fun _ => "200")],
        some (to_field_for_struct ⟨[("anything", fun _ => "test-20")], none, none⟩),
        none⟩ "anything" = "test-20" ∧
    to_field_for_struct
      ⟨[("first_field", fun _ => "test"), ("number", fun _ => "200")],
        some (to_field_for_struct ⟨[("anything", fun _ => "test-20")], none, none⟩),
        none⟩ "anything" ≠ "field not found" := by
  refine ⟨by decide, rfl, by decide⟩

/-- C7 (amended): the empty optional yields the tombstone `"~"` from both
`to_field` and `describe`; the empty sequence yields the tombstone from
`describe` but the empty string (a comma-join of zero results) from
`to_field`; a present optional delegates `to_field` and `describe` to the
wrapped value with the same `Context`; a non-empty sequence describes each
element under `ctx.array()`, concatenating the written pieces. -/
theorem option_vec_tombstones (d : Describe α) (v : α) (xs : List α)
    (field_name : String) (ctx : Context) :
    optionToField d none field_name = "~" ∧
    optionDescribe d none ctx = ctx.write_value "~" ∧
    optionToField d (some v) field_name = d.to_field v field_name ∧
    optionDescribe d (some v) ctx = d.describe v ctx ∧
    vecDescribe d [] ctx = ctx.write_value "~" ∧
    vecToField d [] field_name = "" ∧
    (xs ≠ [] →
      vecDescribe d xs ctx
        = (xs.mapM (fun x => d.describe x ctx.array)).map strConcat) := by
  refine ⟨rfl, rfl, rfl, rfl, rfl, rfl, ?_⟩
  intro hne
  have hx : xs.isEmpty = false := List.isEmpty_eq_false.mpr hne
  simp only [vecDescribe, hx, Bool.false_eq_true, if_false]
  rw [foldlM_describe_eq_mapM]
  cases xs.mapM (fun x => d.describe x ctx.array) with
  | none => rfl
  | some parts => simp [empty_append_str]

theorem option_vec_tombstones_witness :
    (["a"] : List String) ≠ [] ∧
    vecDescribe stringImpl ["a"] defaultContext
      = ((["a"].mapM (fun x => stringImpl.describe x defaultContext.array)).map
          strConcat) :=
  ⟨by decide,
    (option_vec_tombstones stringImpl "a" ["a"] "" defaultContext).2.2.2.2.2.2
      (by decide)⟩

/-- C7 counterexample: `to_field` of the empty sequence is the empty
string, not the tombstone `"~"` that the claim asserts. -/
theorem vec_to_field_empty_not_tombstone :
    vecToField stringImpl ([] : List String) "" = "" ∧
    vecToField stringImpl ([] : List String) "" ≠ "~" := by
  refine ⟨rfl, by decide⟩

/-- C8: optional wrapping is transparent to header derivation — the
`Option<T>` implementation's `headers()` equals `T`'s, and its
`header_name` agrees with `T`'s on every path. -/
theorem option_headers_transparent (d : Describe α) :
    (optionImpl d).headers = d.headers ∧
    ∀ header, (optionImpl d).header_name header = d.header_name header :=
  ⟨rfl, fun _ => rfl⟩

/-- C9: the four `Context` transforms keep `offset` (a `Nat`, hence
non-negative) non-decreasing: `indent` and `indent_and_table` add exactly
2, `padFloor` (the source's `pad`) and `array` keep it unchanged; no
transform decreases it. -/
theorem context_offset_monotone (c : Context) (u p t : Nat) :
    (c.padFloor u).offset = c.offset ∧
    c.array.offset = c.offset ∧
    (c.indent p t).offset = c.offset + 2 ∧
    c.indent_and_table.offset = c.offset + 2 ∧
    c.offset ≤ (c.padFloor u).offset ∧
    c.offset ≤ c.array.offset ∧
    c.offset ≤ (c.indent p t).offset ∧
    c.offset ≤ c.indent_and_table.offset :=
  ⟨rfl, rfl, rfl, rfl, Nat.le_refl _, Nat.le_refl _,
    Nat.le_add_right _ _, Nat.le_add_right _ _⟩

/-- C10: in non-array mode `write_value` pads with exactly
`pad - title_size` spaces and succeeds precisely when `title_size ≤ pad`
(the `usize` subtraction underflows otherwise); in array mode,
`write_value` and `write_title` for a first field compute `offset - 2` and
succeed precisely when `2 ≤ offset`. -/
theorem write_underflow_totality (c : Context) (f t : String) :
    (c.is_array = false →
      ((c.write_value f).isSome ↔ c.title_size ≤ c.pad) ∧
      (c.title_size ≤ c.pad →
        c.write_value f = some (spaces (c.pad - c.title_size) ++ f))) ∧
    (c.is_array = true →
      ((c.write_value f).isSome ↔ 2 ≤ c.offset) ∧
      ((c.write_title t true).isSome ↔ 2 ≤ c.offset) ∧
      (2 ≤ c.offset →
        c.write_value f = some ("\n" ++ spaces (c.offset - 2) ++ "- " ++ f))) := by
  constructor
  · intro h
    constructor
    · simp only [Context.write_value, h, Bool.false_eq_true, if_false]
      split <;> simp_all
    · intro hle
      simp [Context.write_value, h, hle]
  · intro h
    refine ⟨?_, ?_, ?_⟩
    · simp only [Context.write_value, h, if_true]
      split <;> simp_all
    · simp only [Context.write_title, h, Bool.and_true, Bool.true_and]
      split <;> simp_all
    · intro hle
      simp [Context.write_value, h, hle]

/-- C1: in every table render, the width of each column is exactly the
maximum of the display label's length and the visible (ANSI-stripped)
length of every cell in that column. -/
theorem table_column_width_exact (d : Describe α) (data : List α)
    (headers0 : List String) (i : Nat)
    (hi : i < (headerNames d (effectiveHeaders d headers0)).length) :
    (computeColWidths (headerNames d (effectiveHeaders d headers0))
        (tableRows d data (effectiveHeaders d headers0))).getD i 0
      = Nat.max
          ((headerNames d (effectiveHeaders d headers0)).getD i "").length
          (((tableRows d data (effectiveHeaders d headers0)).map
              (fun r => compute_string_size (r.getD i ""))).foldr Nat.max 0) := by
  have hlen : ∀ r ∈ tableRows d data (effectiveHeaders d headers0),
      r.length
        = ((headerNames d (effectiveHeaders d headers0)).map String.length).length := by
    intro r hr
    simp only [tableRows, List.mem_map] at hr
    obtain ⟨a, _, rfl⟩ := hr
    simp [headerNames]
  unfold computeColWidths
  rw [foldl_updateWidths_getD _ _ _ hlen]
  congr 1
  exact getD_map_fn String.length 0 _ i hi

theorem table_column_width_exact_witness :
    0 < (headerNames innerAImpl (effectiveHeaders innerAImpl [])).length ∧
    (computeColWidths (headerNames innerAImpl (effectiveHeaders innerAImpl []))
        (tableRows innerAImpl [("f", "bar"), ("foo", "b")]
          (effectiveHeaders innerAImpl []))).getD 0 0
      = Nat.max
          ((headerNames innerAImpl (effectiveHeaders innerAImpl [])).getD 0 "").length
          (((tableRows innerAImpl [("f", "bar"), ("foo", "b")]
              (effectiveHeaders innerAImpl [])).map
              (fun r => compute_string_size (r.getD 0 ""))).foldr Nat.max 0) :=
  ⟨by decide,
    table_column_width_exact innerAImpl [("f", "bar"), ("foo", "b")] [] 0 (by decide)⟩

/-- C2 (amended): a derived composite's `headers()` is the concatenation,
in declared field order, of each field's described type's
`default_headers()` (not its `headers()`) qualified with `"<field>."`, a
field whose `default_headers()` is empty contributing its bare name; the
`default_headers()` of an `extra_fields` struct, when declared, are
appended unqualified. -/
theorem headers_concat_default_headers (fields : List FieldMeta)
    (extra : Option (List String)) :
    headers_for_struct fields extra
      = (fields.map (fun f =>
          if f.typDefaultHeaders.isEmpty then [f.field_name]
          else f.typDefaultHeaders.map (fun x => f.field_name ++ "." ++ x))).flatten
        ++ extra.getD [] := by
  have hstep : (fun (headers : List String) (f : FieldMeta) =>
      let fs := f.typDefaultHeaders.map (fun x => f.field_name ++ "." ++ x)
      if fs.isEmpty then headers ++ [f.field_name] else headers ++ fs)
      = fun headers f => headers ++
          (if f.typDefaultHeaders.isEmpty then [f.field_name]
           else f.typDefaultHeaders.map (fun x => f.field_name ++ "." ++ x)) := by
    funext headers f
    cases hl : f.typDefaultHeaders with
    | nil => simp
    | cons a l => simp
  unfold headers_for_struct
  rw [hstep, foldl_append_eq_flatten]
  cases extra <;> simp

/-- C2 counterexample: a field whose described type has a `skip_header`
field (so its `default_headers()` is a strict subset of its `headers()`):
the parent's `headers()` qualifies the default list, not the full list. -/
theorem headers_not_from_headers_cex :
    headers_for_struct
        [⟨"car", ["brand", "seat", "model"],
          default_headers_for_struct none ["seat"] ["brand", "seat", "model"]⟩]
        none
      = ["car.brand", "car.model"] ∧
    headersClaim
        [⟨"car", ["brand", "seat", "model"],
          default_headers_for_struct none ["seat"] ["brand", "seat", "model"]⟩]
      = ["car.brand", "car.seat", "car.model"] ∧
    headers_for_struct
        [⟨"car", ["brand", "seat", "model"],
          default_headers_for_struct none ["seat"] ["brand", "seat", "model"]⟩]
        none
      ≠ headersClaim
        [⟨"car", ["brand", "seat", "model"],
          default_headers_for_struct none ["seat"] ["brand", "seat", "model"]⟩] := by
  refine ⟨by decide, by decide, by decide⟩

/-- C3 (amended): when `T::header_name` returns none for a header path,
the displayed column label is the upper-snake-case conversion of the
entire path (dots preserved), not merely of its final segment. -/
theorem header_label_upper_snake_of_path (d : Describe α)
    (headers : List String) (i : Nat) (hi : i < headers.length)
    (hnone : d.header_name (headers.getD i "") = none) :
    (headerNames d headers).getD i "" = toUpperSnake (headers.getD i "") := by
  unfold headerNames
  rw [getD_map_fn (headerLabel d) "" headers i hi]
  unfold headerLabel
  rw [hnone]

theorem header_label_upper_snake_of_path_witness :
    0 < (["address.street"] : List String).length ∧
    addrImpl.header_name ((["address.street"] : List String).getD 0 "") = none ∧
    (headerNames addrImpl ["address.street"]).getD 0 ""
      = toUpperSnake ((["address.street"] : List String).getD 0 "") :=
  ⟨by decide, rfl,
    header_label_upper_snake_of_path addrImpl ["address.street"] 0 (by decide) rfl⟩

/-- C3 counterexample: for the path `"address.street"` (header_name none,
as in the crate doctest) the rendered label is `"ADDRESS.STREET"` — the
upper-snake conversion of the whole path — whereas the upper-snake
conversion of the final segment alone is `"STREET"`. -/
theorem header_label_not_final_segment :
    (headerNames addrImpl ["address.street"]).getD 0 "" = "ADDRESS.STREET" ∧
    toUpperSnake (finalSegment "address.street") = "STREET" ∧
    (headerNames addrImpl ["address.street"]).getD 0 ""
      ≠ toUpperSnake (finalSegment "address.street") := by
  refine ⟨by decide, by decide, by decide⟩

/-- C5: rendering an empty item collection completes (total function, no
error) and emits the `"Empty list"` marker — but the marker is written by
`writeln!` with no preceding newline, so it lands on the same output line
as the header row (and the final `writeln!` of `describe_list_with_header`
then yields a double newline), instead of forming its own line after the
header row. -/
theorem empty_table_marker_on_header_line :
    table_describe_to_string innerAImpl ([] : List (String × String))
      = "STATE VALUEEmpty list\n\n" ∧
    table_describe_to_string innerAImpl ([] : List (String × String))
      ≠ "STATE VALUE\nEmpty list\n" := by
  refine ⟨by decide, by decide⟩

/-- C6: `describe` of a string-keyed map writes, for the empty map, the
tombstone value; for a non-empty map it iterates the keys in ascending
sorted order (any sorted arrangement of the key multiset gives its
output), writes each key as a title, and recurses into each value with
`ctx.indent(pad, key.len())` where `pad` is the maximum key length + 1. -/
theorem hashMap_describe_sorted_keys (d : Describe α)
    (m : List (String × α)) (ctx : Context) (keys : List String)
    (hne : m ≠ [])
    (hperm : keys.Perm (m.map Prod.fst))
    (hsorted : List.Sorted (fun a b => strLe a b = true) keys) :
    hashMapDescribe d ([] : List (String × α)) ctx = ctx.write_value "~" ∧
    hashMapDescribe d m ctx
      = keys.foldlM
          (fun acc k =>
            (ctx.write_title k false).bind fun title =>
            ((m.find? (fun kv => kv.1 == k)).map Prod.snd).bind fun v =>
            (d.describe v
              (ctx.indent ((m.map (fun kv => kv.1.length)).foldl Nat.max 0 + 1)
                k.length)).map fun body =>
            acc ++ title ++ body)
          "" := by
  constructor
  · rfl
  · have hkeys : sortKeys (m.map Prod.fst) = keys :=
      List.eq_of_perm_of_sorted ((sortKeys_perm _).trans hperm.symm)
        (sortKeys_sorted _) hsorted
    have hne2 : m.isEmpty = false := List.isEmpty_eq_false.mpr hne
    simp only [hashMapDescribe, hne2, Bool.false_eq_true, if_false, hkeys]

theorem hashMap_describe_sorted_keys_witness :
    ([("test", "f"), ("f", "f")] : List (String × String)) ≠ [] ∧
    hashMapDescribe stringImpl [("test", "f"), ("f", "f")] defaultContext
      = some "\nf:    f\ntest: f" :=
  ⟨by decide,
    ((hashMap_describe_sorted_keys stringImpl [("test", "f"), ("f", "f")]
        defaultContext ["f", "test"] (by decide) (by decide) (by decide)).2).trans
      (by decide)⟩

theorem write_underflow_totality_witness :
    ({ pad := 3, title_size := 1 } : Context).write_value "x"
      = some (spaces 2 ++ "x") ∧
    ((({ offset := 2, is_array := true } : Context).write_title "t" true).isSome) :=
  ⟨((write_underflow_totality { pad := 3, title_size := 1 } "x" "t").1 rfl).2
      (by decide),
    (((write_underflow_totality { offset := 2, is_array := true } "x" "t").2
      rfl).2.1).mpr (by decide)⟩

end Descriptor
